import Mathlib

/-!
# BlockC: a shallow embedding of a minimal append-only ledger

This file embeds the core of the BlockC repository (a toy blockchain written
in Rust) into Lean 4 and proves the specification's claims about it.

Modelling conventions:

* Rust `f64` amounts and balances are modelled as `Rat`, following the
  specification's own description of balances as real numbers.  All
  arithmetic the program performs on them (`+`, `-`, `>=`) is exact on the
  values used here.
* Rust `u32` timestamps and nonces are modelled as `Nat`; the program never
  does arithmetic on them, only decimal formatting, so no wrap-around is
  involved.
* The system clock (`helpers::helper_functions::get_time`) is modelled by
  passing the timestamp as an explicit argument to every constructor that
  reads the clock.
* `&mut` mutation is modelled by explicit state passing: a Rust method
  mutating `self` becomes a Lean function returning the updated value.
* The `unwrap()` panic in `Blockchain::get_latest_block` /
  `get_latest_hash` is modelled with `Option`: `none` is the panic branch.
* SHA-256 (the Rust `sha2` crate) is implemented concretely below over
  lists of bytes (`Nat` values below 256), with 32-bit words as `Nat`
  reduced mod `2 ^ 32`.
-/

namespace BlockC

/-! ## SHA-256 over byte lists -/

/-- 32-bit truncation modulus. -/
def m32 : Nat := 4294967296

/-- Right rotation of a 32-bit word (input assumed below `m32`). -/
def rotr (n x : Nat) : Nat := ((x >>> n) ||| (x <<< (32 - n))) % m32

/-- SHA-256 small sigma 0. -/
def ssig0 (x : Nat) : Nat := (rotr 7 x) ^^^ (rotr 18 x) ^^^ (x >>> 3)

/-- SHA-256 small sigma 1. -/
def ssig1 (x : Nat) : Nat := (rotr 17 x) ^^^ (rotr 19 x) ^^^ (x >>> 10)

/-- SHA-256 big sigma 0. -/
def bsig0 (x : Nat) : Nat := (rotr 2 x) ^^^ (rotr 13 x) ^^^ (rotr 22 x)

/-- SHA-256 big sigma 1. -/
def bsig1 (x : Nat) : Nat := (rotr 6 x) ^^^ (rotr 11 x) ^^^ (rotr 25 x)

/-- SHA-256 choice function; complement is xor with the all-ones word. -/
def ch (x y z : Nat) : Nat := (x &&& y) ^^^ ((x ^^^ 4294967295) &&& z)

/-- SHA-256 majority function. -/
def maj (x y z : Nat) : Nat := (x &&& y) ^^^ (x &&& z) ^^^ (y &&& z)

/-- The 64 SHA-256 round constants, written in decimal. -/
def kConsts : List Nat :=
  [1116352408, 1899447441, 3049323471, 3921009573, 961987163,
   1508970993, 2453635748, 2870763221, 3624381080, 310598401,
   607225278, 1426881987, 1925078388, 2162078206, 2614888103,
   3248222580, 3835390401, 4022224774, 264347078, 604807628,
   770255983, 1249150122, 1555081692, 1996064986, 2554220882,
   2821834349, 2952996808, 3210313671, 3336571891, 3584528711,
   113926993, 338241895, 666307205, 773529912, 1294757372,
   1396182291, 1695183700, 1986661051, 2177026350, 2456956037,
   2730485921, 2820302411, 3259730800, 3345764771, 3516065817,
   3600352804, 4094571909, 275423344, 430227734, 506948616,
   659060556, 883997877, 958139571, 1322822218, 1537002063,
   1747873779, 1955562222, 2024104815, 2227730452, 2361852424,
   2428436474, 2756734187, 3204031479, 3329325298]

/-- Internal hash state: the eight 32-bit working variables. -/
abbrev Sha256State := Nat × Nat × Nat × Nat × Nat × Nat × Nat × Nat

/-- SHA-256 initial hash value, written in decimal. -/
def initH : Sha256State :=
  (1779033703, 3144134277, 1013904242,
   2773480762, 1359893119, 2600822924,
   528734635, 1541459225)

/-- Big-endian 8-byte encoding of a length in bits. -/
def lenBytes (n : Nat) : List Nat :=
  [(n >>> 56) % 256, (n >>> 48) % 256, (n >>> 40) % 256, (n >>> 32) % 256,
   (n >>> 24) % 256, (n >>> 16) % 256, (n >>> 8) % 256, n % 256]

/-- SHA-256 padding: append `0x80`, zero bytes up to 56 mod 64, then the
bit length as 8 big-endian bytes. -/
def padBytes (ms : List Nat) : List Nat :=
  let l := ms.length
  ms ++ [128] ++ List.replicate ((119 - l % 64) % 64) 0 ++ lenBytes (8 * l)

/-- Group a byte list into big-endian 32-bit words. -/
def toWords : List Nat → List Nat
  | a :: b :: c :: d :: rest =>
      (a * 16777216 + b * 65536 + c * 256 + d) :: toWords rest
  | _ => []

/-- Group a word list into chunks of 16 words (structural recursion, so the
kernel can evaluate it; trailing words that do not fill a chunk cannot occur
after padding and are dropped). -/
def group16 : List Nat → List (List Nat)
  | w0 :: w1 :: w2 :: w3 :: w4 :: w5 :: w6 :: w7 ::
    w8 :: w9 :: w10 :: w11 :: w12 :: w13 :: w14 :: w15 :: rest =>
      [w0, w1, w2, w3, w4, w5, w6, w7,
       w8, w9, w10, w11, w12, w13, w14, w15] :: group16 rest
  | _ => []

/-- Extend the 16-word message block by `steps` further schedule words. -/
def extendWords (w : List Nat) (steps : Nat) : List Nat :=
  match steps with
  | 0 => w
  | n + 1 =>
      let i := w.length
      let nw := (w.getD (i - 16) 0 + ssig0 (w.getD (i - 15) 0) +
                 w.getD (i - 7) 0 + ssig1 (w.getD (i - 2) 0)) % m32
      extendWords (w ++ [nw]) n

/-- One SHA-256 round: fold the working state over a (round constant,
schedule word) pair. -/
def round (st : Sha256State) (kw : Nat × Nat) : Sha256State :=
  let (a, b, c, d, e, f, g, h) := st
  let t1 := (h + bsig1 e + ch e f g + kw.1 + kw.2) % m32
  let t2 := (bsig0 a + maj a b c) % m32
  ((t1 + t2) % m32, a, b, c, (d + t1) % m32, e, f, g)

/-- Compress one 16-word chunk into the running hash state. -/
def compress (st : Sha256State) (chunk : List Nat) : Sha256State :=
  let ws := extendWords chunk 48
  let (a, b, c, d, e, f, g, h) := (kConsts.zip ws).foldl round st
  let (a0, b0, c0, d0, e0, f0, g0, h0) := st
  ((a0 + a) % m32, (b0 + b) % m32, (c0 + c) % m32, (d0 + d) % m32,
   (e0 + e) % m32, (f0 + f) % m32, (g0 + g) % m32, (h0 + h) % m32)

/-- Big-endian 4-byte decomposition of a 32-bit word. -/
def wordBytes (w : Nat) : List Nat :=
  [(w >>> 24) % 256, (w >>> 16) % 256, (w >>> 8) % 256, w % 256]

/-- SHA-256 digest of a byte list, as the list of its 32 digest bytes. -/
def sha256 (ms : List Nat) : List Nat :=
  let chunks := group16 (toWords (padBytes ms))
  let (a, b, c, d, e, f, g, h) := chunks.foldl compress initH
  wordBytes a ++ wordBytes b ++ wordBytes c ++ wordBytes d ++
  wordBytes e ++ wordBytes f ++ wordBytes g ++ wordBytes h

/-! ## Hex rendering and UTF-8 encoding -/

/-- Lowercase hex digit for a value below 16. -/
def hexChar (n : Nat) : Char :=
  if n < 10 then Char.ofNat (48 + n) else Char.ofNat (87 + n)

/-- The two lowercase hex characters of a byte, high nibble first.  This is
Rust's per-byte formatting with two zero-padded lowercase hex digits. -/
def byteHexChars (b : Nat) : List Char := [hexChar (b / 16), hexChar (b % 16)]

/-- Lowercase hex string of a byte list: two characters per byte, no
separators, no prefix. -/
def hexString (bs : List Nat) : String := String.mk (bs.map byteHexChars).flatten

/-- UTF-8 encoding of one character. -/
def charUtf8 (c : Char) : List Nat :=
  let n := c.toNat
  if n < 128 then [n]
  else if n < 2048 then [192 + n / 64, 128 + n % 64]
  else if n < 65536 then [224 + n / 4096, 128 + (n / 64) % 64, 128 + n % 64]
  else [240 + n / 262144, 128 + (n / 4096) % 64, 128 + (n / 64) % 64, 128 + n % 64]

/-- UTF-8 bytes of a string (Rust's `as_bytes` on `String`). -/
def utf8Bytes (s : String) : List Nat := (s.data.map charUtf8).flatten

/-! ## Amount formatting

The Rust source formats `f64` amounts with the default `Display` (`"{}"`),
which renders integral values without a fractional part (`40.0` prints as
`"40"`).  The specification flags the non-integral rendering as an open
question that any reimplementation must pin; here it is pinned to the
rational's own representation.  Every amount used concretely in this file is
integral, where the two renderings agree. -/

/-- Decimal rendering of an amount: integral rationals render as their
integer (matching Rust's `Display` for `f64`), others as the rational's
representation (pinned here, per the spec's open question). -/
def amountStr (q : Rat) : String :=
  if q.den = 1 then toString q.num else toString q

/-! ## Transaction (src/transactions/transactions.rs) -/

/-- A transaction record, from `struct Transaction`. -/
structure Transaction where
  sender_address : String
  receiver_address : String
  amount : Rat
  timestamp : Nat
  signature : String
  deriving Repr, DecidableEq

/-! ## Entity (src/entity/entity.rs) -/

/-- Minimum allowed balance for an entity (`MIN_BALANCE`). -/
def MIN_BALANCE : Rat := 0

/-- A participant in the blockchain, from `struct Entity`. -/
structure Entity where
  address : String
  balance : Rat
  history : List Transaction
  public_key : String
  private_key : String
  deriving Repr, DecidableEq

namespace Entity

/-- `Entity::get_balance`. -/
def get_balance (e : Entity) : Rat := e.balance

/-- `Entity::can_send`: `self.balance >= amount`. -/
def can_send (e : Entity) (amount : Rat) : Bool := e.balance ≥ amount

/-- `Entity::send_amount`, with the `&mut self` mutation modelled by
returning the updated entity alongside the `Result`. -/
def send_amount (e : Entity) (amount : Rat) : Except String Unit × Entity :=
  if !(e.can_send amount) then
    (Except.error ("Insufficient balance. Have: " ++ amountStr e.balance ++
                   ", Need: " ++ amountStr amount), e)
  else
    (Except.ok (), { e with balance := e.balance - amount })

/-- `Entity::receive_amount`: unconditionally adds to the balance. -/
def receive_amount (e : Entity) (amount : Rat) : Entity :=
  { e with balance := e.balance + amount }

/-- `Entity::add_to_history`: pushes a transaction onto the history. -/
def add_to_history (e : Entity) (transaction : Transaction) : Entity :=
  { e with history := e.history ++ [transaction] }

/-- `Entity::sign`: hex SHA-256 of the data concatenated with the private
key. -/
def sign (e : Entity) (transaction_data : String) : String :=
  hexString (sha256 (utf8Bytes (transaction_data ++ e.private_key)))

end Entity

namespace Transaction

/-- `Transaction::create_and_sign`: build the signable payload
(sender address, receiver address, amount, timestamp concatenated with no
separators), sign it with the sender's key, and build the record. -/
def create_and_sign (sender receiver : Entity) (amount_tx : Rat)
    (time_stamp : Nat) : Transaction :=
  let transaction_data := sender.address ++ receiver.address ++
    amountStr amount_tx ++ toString time_stamp
  let signature := sender.sign transaction_data
  { sender_address := sender.address
    receiver_address := receiver.address
    amount := amount_tx
    timestamp := time_stamp
    signature := signature }

/-- `Transaction::create_and_execute`: check the sender's balance, create
and sign the transaction, debit the sender, credit the receiver, and record
the transaction in both histories.  The two `&mut` entities are returned
(updated or untouched) alongside the `Result`. -/
def create_and_execute (sender receiver : Entity) (amount : Rat)
    (time_stamp : Nat) : Except String Transaction × Entity × Entity :=
  if !(sender.can_send amount) then
    (Except.error "Insufficient balance", sender, receiver)
  else
    let transaction := create_and_sign sender receiver amount time_stamp
    match sender.send_amount amount with
    | (Except.error e, sender1) => (Except.error e, sender1, receiver)
    | (Except.ok _, sender1) =>
        let receiver1 := receiver.receive_amount amount
        let sender2 := sender1.add_to_history transaction
        let receiver2 := receiver1.add_to_history transaction
        (Except.ok transaction, sender2, receiver2)

end Transaction

/-! ## Block (src/block/block.rs) -/

/-- A block, from `struct Block`. -/
structure Block where
  block_hash : String
  previous_block_hash : String
  transaction : List Transaction
  time_stamp : Nat
  nonce : Nat
  deriving Repr, DecidableEq

namespace Block

/-- The `transaction_str` built inside `Block::hash`: each transaction
renders as sender address, receiver address, amount, timestamp concatenated,
and the per-transaction strings are joined with a comma. -/
def transactionStr (transaction : List Transaction) : String :=
  String.intercalate "," (transaction.map fun t =>
    t.sender_address ++ t.receiver_address ++ amountStr t.amount ++
    toString t.timestamp)

/-- `Block::hash`: lowercase-hex SHA-256 of the UTF-8 bytes of the previous
hash, decimal timestamp, decimal nonce and `transaction_str` concatenated. -/
def hash (previous_hash : String) (time_stamp : Nat) (nonce : Nat)
    (transaction : List Transaction) : String :=
  hexString (sha256 (utf8Bytes (previous_hash ++ toString time_stamp ++
    toString nonce ++ transactionStr transaction)))

/-- `Block::new`: fixes `nonce = 0`, computes the hash over the stored
fields, and constructs the block.  The clock read becomes the `time_stamp`
argument. -/
def new (transaction : List Transaction) (previous_block_hash : String)
    (time_stamp : Nat) : Block :=
  { block_hash := hash previous_block_hash time_stamp 0 transaction
    previous_block_hash := previous_block_hash
    transaction := transaction
    time_stamp := time_stamp
    nonce := 0 }

/-- `Block::calculate_hash`: recompute the hash from the stored fields. -/
def calculate_hash (b : Block) : String :=
  hash b.previous_block_hash b.time_stamp b.nonce b.transaction

end Block

/-! ## Blockchain (src/blockchain/blockchain.rs) -/

/-- The chain, from `struct Blockchain`. -/
structure Blockchain where
  chain : List Block
  difficulty : Nat
  deriving Repr, DecidableEq

namespace Blockchain

/-- `Blockchain::new`: genesis block with no transactions and previous hash
`"0"`, difficulty 3. -/
def new (time_stamp : Nat) : Blockchain :=
  { chain := [Block.new [] "0" time_stamp], difficulty := 3 }

/-- `Blockchain::get_latest_block`; `none` models the `unwrap` panic on an
empty chain. -/
def get_latest_block (b : Blockchain) : Option Block := b.chain.getLast?

/-- `Blockchain::get_latest_hash`; `none` models the `unwrap` panic on an
empty chain. -/
def get_latest_hash (b : Blockchain) : Option String :=
  b.chain.getLast?.map Block.block_hash

/-- `Blockchain::add_block`: read the latest hash, build the new block and
push it; `none` models the panic that the latest-hash `unwrap` would raise
on an empty chain. -/
def add_block (b : Blockchain) (transactions : List Transaction)
    (time_stamp : Nat) : Option Blockchain :=
  b.get_latest_hash.map fun previous_hash =>
    { b with chain := b.chain ++ [Block.new transactions previous_hash time_stamp] }

/-- The `windows(2)` loop body of `Blockchain::is_valid`: walking the chain
pairwise, check each later block's stored hash against its recomputed hash
and its previous-hash field against the earlier block's hash. -/
def validLinks (previous : Block) : List Block → Bool
  | [] => true
  | current :: rest =>
      if current.block_hash ≠ current.calculate_hash then false
      else if current.previous_block_hash ≠ previous.block_hash then false
      else validLinks current rest

/-- `Blockchain::is_valid`: empty chain invalid; genesis previous hash must
be `"0"` and its stored hash must match its recomputed hash; then the
pairwise checks along the chain. -/
def is_valid (b : Blockchain) : Bool :=
  match b.chain with
  | [] => false
  | genesis :: rest =>
      if genesis.previous_block_hash ≠ "0" then false
      else if genesis.block_hash ≠ genesis.calculate_hash then false
      else validLinks genesis rest

end Blockchain

/-! ## Tamper modelling

The claims about tampering mutate one field of one stored block (or one
stored transaction) after insertion; these helpers perform that mutation on
the chain's list. -/

/-- Overwrite the `previous_block_hash` field of the block at position `i`. -/
def setPrevAt : List Block → Nat → String → List Block
  | [], _, _ => []
  | blk :: rest, 0, v => { blk with previous_block_hash := v } :: rest
  | blk :: rest, i + 1, v => blk :: setPrevAt rest i v

/-- Overwrite the `block_hash` field of the block at position `i`. -/
def setHashAt : List Block → Nat → String → List Block
  | [], _, _ => []
  | blk :: rest, 0, v => { blk with block_hash := v } :: rest
  | blk :: rest, i + 1, v => blk :: setHashAt rest i v

/-- Overwrite the `signature` field of the transaction at position `j`. -/
def setSigAt : List Transaction → Nat → String → List Transaction
  | [], _, _ => []
  | t :: rest, 0, s => { t with signature := s } :: rest
  | t :: rest, j + 1, s => t :: setSigAt rest j s

/-- Overwrite the signature of transaction `j` inside block `i`. -/
def setTxSigAt : List Block → Nat → Nat → String → List Block
  | [], _, _, _ => []
  | blk :: rest, 0, j, s =>
      { blk with transaction := setSigAt blk.transaction j s } :: rest
  | blk :: rest, i + 1, j, s => blk :: setTxSigAt rest i j s

/-! ## Reachable chains

The chains constructible through the public interface: `Blockchain::new`
followed by any finite sequence of `add_block` calls (with arbitrary
transaction vectors and clock readings). -/

/-- Chains reachable through the public interface. -/
inductive Reachable : Blockchain → Prop
  | new (time_stamp : Nat) : Reachable (Blockchain.new time_stamp)
  | add (c c2 : Blockchain) (txs : List Transaction) (time_stamp : Nat) :
      Reachable c → c.add_block txs time_stamp = some c2 → Reachable c2

/-- A chain built through the public interface: `Blockchain::new` followed by
the given sequence of `add_block` calls (each step a transaction vector and a
clock reading). -/
def buildChain (t0 : Nat) (steps : List (List Transaction × Nat)) :
    Option Blockchain :=
  steps.foldl (fun oc p => oc.bind fun c => c.add_block p.1 p.2)
    (some (Blockchain.new t0))

/-! ## Helper lemmas -/

namespace Blockchain

/-- `validLinks` on a cons, in boolean-conjunction form. -/
theorem validLinks_cons (prev cur : Block) (rest : List Block) :
    validLinks prev (cur :: rest) =
      ((cur.block_hash == cur.calculate_hash) &&
       ((cur.previous_block_hash == prev.block_hash) && validLinks cur rest)) := by
  by_cases h1 : cur.block_hash = cur.calculate_hash <;>
  by_cases h2 : cur.previous_block_hash = prev.block_hash <;>
  simp [validLinks, h1, h2]

/-- `is_valid` on a non-empty chain, in boolean-conjunction form. -/
theorem is_valid_cons (g : Block) (rest : List Block) (d : Nat) :
    (Blockchain.mk (g :: rest) d).is_valid =
      ((g.previous_block_hash == "0") &&
       ((g.block_hash == g.calculate_hash) && validLinks g rest)) := by
  by_cases h1 : g.previous_block_hash = "0" <;>
  by_cases h2 : g.block_hash = g.calculate_hash <;>
  simp [is_valid, h1, h2]

/-- `validLinks` only reads the hash of the block handed in as predecessor. -/
theorem validLinks_congr (p1 p2 : Block) (l : List Block)
    (hp : p1.block_hash = p2.block_hash) :
    validLinks p1 l = validLinks p2 l := by
  cases l with
  | nil => rfl
  | cons cur rest => rw [validLinks_cons, validLinks_cons, hp]

/-- Appending a block whose stored hash is self-consistent and whose
previous-hash field is the last block's hash preserves the pairwise checks. -/
theorem validLinks_append (prev : Block) (l : List Block) (nb : Block)
    (h : validLinks prev l = true)
    (hlink : nb.previous_block_hash =
      ((prev :: l).getLast (List.cons_ne_nil _ _)).block_hash)
    (hhash : nb.block_hash = nb.calculate_hash) :
    validLinks prev (l ++ [nb]) = true := by
  induction l generalizing prev with
  | nil =>
      simp only [List.getLast_singleton] at hlink
      simp [validLinks, hhash, hlink]
  | cons cur rest ih =>
      rw [validLinks_cons] at h
      simp only [Bool.and_eq_true, beq_iff_eq] at h
      obtain ⟨h1, h2, h3⟩ := h
      rw [List.cons_append, validLinks_cons]
      simp only [Bool.and_eq_true, beq_iff_eq]
      refine ⟨h1, h2, ih cur h3 ?_⟩
      rw [hlink]
      congr 1

/-- A valid chain accepts any `add_block`, and the grown chain is valid. -/
theorem add_block_valid (b : Blockchain) (txs : List Transaction) (ts : Nat)
    (h : b.is_valid = true) :
    ∃ b2, b.add_block txs ts = some b2 ∧ b2.is_valid = true := by
  obtain ⟨chain, d⟩ := b
  match chain with
  | [] => simp [is_valid] at h
  | g :: rest =>
      rw [is_valid_cons] at h
      simp only [Bool.and_eq_true, beq_iff_eq] at h
      obtain ⟨hg0, hg1, hrest⟩ := h
      have hne : g :: rest ≠ [] := List.cons_ne_nil _ _
      have hlast : (g :: rest).getLast? = some ((g :: rest).getLast hne) :=
        List.getLast?_eq_getLast_of_ne_nil hne
      refine ⟨Blockchain.mk ((g :: rest) ++
        [Block.new txs ((g :: rest).getLast hne).block_hash ts]) d, ?_, ?_⟩
      · simp [add_block, get_latest_hash, hlast]
      · rw [List.cons_append, is_valid_cons]
        simp only [Bool.and_eq_true, beq_iff_eq]
        exact ⟨hg0, hg1, validLinks_append g rest _ hrest rfl rfl⟩

/-- The fresh genesis-only chain is valid. -/
theorem new_is_valid (t : Nat) : (Blockchain.new t).is_valid = true := by
  rw [show Blockchain.new t = Blockchain.mk [Block.new [] "0" t] 3 from rfl,
    is_valid_cons]
  simp [Block.new, validLinks, Block.calculate_hash]

/-- Folding `add_block` steps over a valid chain never hits the panic branch
and keeps the chain valid. -/
theorem foldl_add_block_valid (steps : List (List Transaction × Nat))
    (c : Blockchain) (h : c.is_valid = true) :
    ((steps.foldl (fun oc p => oc.bind fun c => c.add_block p.1 p.2)
        (some c)).map Blockchain.is_valid) = some true := by
  induction steps generalizing c with
  | nil => simp [h]
  | cons p rest ih =>
      obtain ⟨c2, hadd, hvalid⟩ := add_block_valid c p.1 p.2 h
      rw [List.foldl_cons,
        show ((some c).bind fun c => c.add_block p.1 p.2) = some c2 from by
          simp [hadd]]
      exact ih c2 hvalid

/-- Tampering with the stored hash at position `i` of a pairwise-checked
suffix breaks the pairwise checks. -/
theorem validLinks_setHashAt (prev : Block) (l : List Block) (i : Nat)
    (s : String) (h : validLinks prev l = true) (hi : i < l.length)
    (hs : s ≠ l[i].block_hash) :
    validLinks prev (setHashAt l i s) = false := by
  induction l generalizing prev i with
  | nil => simp at hi
  | cons cur rest ih =>
      rw [validLinks_cons] at h
      simp only [Bool.and_eq_true, beq_iff_eq] at h
      obtain ⟨h1, h2, h3⟩ := h
      match i with
      | 0 =>
          simp only [List.getElem_cons_zero] at hs
          rw [show setHashAt (cur :: rest) 0 s =
                { cur with block_hash := s } :: rest from rfl,
            validLinks_cons]
          have hcalc : ({ cur with block_hash := s } : Block).calculate_hash =
              cur.calculate_hash := rfl
          simp [hcalc, h1 ▸ hs]
      | i + 1 =>
          simp only [List.getElem_cons_succ] at hs
          have hi' : i < rest.length := by simpa using hi
          rw [show setHashAt (cur :: rest) (i + 1) s =
                cur :: setHashAt rest i s from rfl,
            validLinks_cons]
          simp [h1, h2, ih cur i h3 hi' hs]

/-- Tampering with the previous-hash field at position `i` of a
pairwise-checked suffix breaks the pairwise checks. -/
theorem validLinks_setPrevAt (prev : Block) (l : List Block) (i : Nat)
    (v : String) (h : validLinks prev l = true) (hi : i < l.length)
    (hv : v ≠ l[i].previous_block_hash) :
    validLinks prev (setPrevAt l i v) = false := by
  induction l generalizing prev i with
  | nil => simp at hi
  | cons cur rest ih =>
      rw [validLinks_cons] at h
      simp only [Bool.and_eq_true, beq_iff_eq] at h
      obtain ⟨h1, h2, h3⟩ := h
      match i with
      | 0 =>
          simp only [List.getElem_cons_zero] at hv
          rw [show setPrevAt (cur :: rest) 0 v =
                { cur with previous_block_hash := v } :: rest from rfl,
            validLinks_cons]
          have : (v == prev.block_hash) = false := by
            simp only [beq_eq_false_iff_ne]
            exact h2 ▸ hv
          simp [this]
      | i + 1 =>
          simp only [List.getElem_cons_succ] at hv
          have hi' : i < rest.length := by simpa using hi
          rw [show setPrevAt (cur :: rest) (i + 1) v =
                cur :: setPrevAt rest i v from rfl,
            validLinks_cons]
          simp [h1, h2, ih cur i h3 hi' hv]

end Blockchain

/-- The per-transaction payload string of `Block::hash` ignores the
signature field. -/
theorem map_payload_setSigAt (l : List Transaction) (j : Nat) (s : String) :
    (setSigAt l j s).map (fun t => t.sender_address ++ t.receiver_address ++
        amountStr t.amount ++ toString t.timestamp) =
      l.map (fun t => t.sender_address ++ t.receiver_address ++
        amountStr t.amount ++ toString t.timestamp) := by
  induction l generalizing j with
  | nil => rfl
  | cons t rest ih =>
      match j with
      | 0 => rfl
      | j + 1 =>
          rw [show setSigAt (t :: rest) (j + 1) s = t :: setSigAt rest j s
              from rfl]
          simp [ih j]

/-- `transaction_str` ignores signature fields. -/
theorem transactionStr_setSigAt (l : List Transaction) (j : Nat) (s : String) :
    Block.transactionStr (setSigAt l j s) = Block.transactionStr l := by
  rw [Block.transactionStr, Block.transactionStr, map_payload_setSigAt]

/-- `calculate_hash` ignores signature fields. -/
theorem calculate_hash_setSigAt (blk : Block) (j : Nat) (s : String) :
    ({ blk with transaction := setSigAt blk.transaction j s } : Block).calculate_hash =
      blk.calculate_hash := by
  simp only [Block.calculate_hash, Block.hash, transactionStr_setSigAt]

/-- The pairwise checks ignore signature fields. -/
theorem validLinks_setTxSigAt (prev : Block) (l : List Block) (i j : Nat)
    (s : String) (h : Blockchain.validLinks prev l = true) :
    Blockchain.validLinks prev (setTxSigAt l i j s) = true := by
  induction l generalizing prev i with
  | nil => simpa using h
  | cons cur rest ih =>
      rw [Blockchain.validLinks_cons] at h
      simp only [Bool.and_eq_true, beq_iff_eq] at h
      obtain ⟨h1, h2, h3⟩ := h
      match i with
      | 0 =>
          rw [show setTxSigAt (cur :: rest) 0 j s =
                { cur with transaction := setSigAt cur.transaction j s } :: rest
              from rfl,
            Blockchain.validLinks_cons]
          rw [Blockchain.validLinks_congr
              ({ cur with transaction := setSigAt cur.transaction j s }) cur rest rfl,
            calculate_hash_setSigAt]
          simp [h1, h2, h3]
      | i + 1 =>
          rw [show setTxSigAt (cur :: rest) (i + 1) j s =
                cur :: setTxSigAt rest i j s from rfl,
            Blockchain.validLinks_cons]
          simp [h1, h2, ih cur i h3]

/-! ## Claim theorems -/

/-- C1: every chain built through the public interface — `Blockchain::new`
followed by any finite sequence of `add_block` calls with arbitrary
transaction vectors (and arbitrary clock readings) — satisfies
`is_valid() = true`; in particular the fresh genesis-only chain is valid. -/
theorem public_chains_are_valid (t0 : Nat)
    (steps : List (List Transaction × Nat)) :
    (Blockchain.new t0).is_valid = true ∧
    (buildChain t0 steps).map Blockchain.is_valid = some true := by
  exact ⟨Blockchain.new_is_valid t0,
    Blockchain.foldl_add_block_valid steps _ (Blockchain.new_is_valid t0)⟩

/-- C2: on a valid chain, overwriting a non-genesis block's
`previous_block_hash` with any value other than the one stored, or
overwriting any block's stored `block_hash` with any other string (an
overwrite with the identical string is no mutation at all), makes
`is_valid` return `false`. -/
theorem hash_tampering_invalidates_chain (b : Blockchain) (i : Nat)
    (hi : i < b.chain.length) (hvalid : b.is_valid = true) :
    (∀ v, i ≠ 0 → v ≠ b.chain[i].previous_block_hash →
        (Blockchain.mk (setPrevAt b.chain i v) b.difficulty).is_valid = false) ∧
    (∀ s, s ≠ b.chain[i].block_hash →
        (Blockchain.mk (setHashAt b.chain i s) b.difficulty).is_valid = false) := by
  obtain ⟨chain, d⟩ := b
  match chain with
  | [] => simp [Blockchain.is_valid] at hvalid
  | g :: rest =>
      rw [Blockchain.is_valid_cons] at hvalid
      simp only [Bool.and_eq_true, beq_iff_eq] at hvalid
      obtain ⟨hg0, hg1, hrest⟩ := hvalid
      constructor
      · intro v hi0 hv
        match i, hi0 with
        | j + 1, _ =>
            simp only [List.getElem_cons_succ] at hv
            have hj : j < rest.length := by simpa using hi
            rw [show setPrevAt (g :: rest) (j + 1) v = g :: setPrevAt rest j v
                from rfl,
              Blockchain.is_valid_cons]
            simp [hg0, hg1,
              Blockchain.validLinks_setPrevAt g rest j v hrest hj hv]
      · intro s hs
        match i with
        | 0 =>
            simp only [List.getElem_cons_zero] at hs
            rw [show setHashAt (g :: rest) 0 s =
                  { g with block_hash := s } :: rest from rfl,
              Blockchain.is_valid_cons]
            have hcalc : ({ g with block_hash := s } : Block).calculate_hash =
                g.calculate_hash := rfl
            simp [hcalc, hg1 ▸ hs]
        | j + 1 =>
            simp only [List.getElem_cons_succ] at hs
            have hj : j < rest.length := by simpa using hi
            rw [show setHashAt (g :: rest) (j + 1) s = g :: setHashAt rest j s
                from rfl,
              Blockchain.is_valid_cons]
            simp [hg0, hg1,
              Blockchain.validLinks_setHashAt g rest j s hrest hj hs]

/-- C8: every chain reachable through the public operations has a non-empty
block sequence, so the `unwrap` panic branch of `get_latest_block` and
`get_latest_hash` (modelled as `none`) is unreachable. -/
theorem reachable_chain_nonempty (c : Blockchain) (h : Reachable c) :
    c.chain ≠ [] ∧ c.get_latest_block.isSome = true ∧
    c.get_latest_hash.isSome = true := by
  have hne : c.chain ≠ [] := by
    induction h with
    | new ts => simp [Blockchain.new]
    | add c c2 txs ts hr heq ih =>
        rw [Blockchain.add_block] at heq
        match hlh : c.get_latest_hash with
        | none => rw [hlh] at heq; simp at heq
        | some prev =>
            rw [hlh] at heq
            simp only [Option.map_some', Option.some.injEq] at heq
            rw [← heq]
            simp
  refine ⟨hne, ?_, ?_⟩
  · simp [Blockchain.get_latest_block, List.getLast?_isSome, hne]
  · simp [Blockchain.get_latest_hash, List.getLast?_isSome, hne]

/-- C8 witness: the fresh chain is reachable, and the conclusion holds
there. -/
theorem reachable_chain_nonempty_witness :
    (Blockchain.new 0).chain ≠ [] ∧
    (Blockchain.new 0).get_latest_block.isSome = true ∧
    (Blockchain.new 0).get_latest_hash.isSome = true :=
  reachable_chain_nonempty (Blockchain.new 0) (Reachable.new 0)

/-- C9: replacing the signature of any stored transaction with any string
leaves `calculate_hash` unchanged, and a chain that satisfied `is_valid`
still satisfies it after such a mutation — signatures are not covered by the
integrity check. -/
theorem signature_not_integrity_covered (b : Blockchain) (i j : Nat)
    (s : String) (hvalid : b.is_valid = true) :
    (∀ blk : Block,
      ({ blk with transaction := setSigAt blk.transaction j s } : Block).calculate_hash =
        blk.calculate_hash) ∧
    (Blockchain.mk (setTxSigAt b.chain i j s) b.difficulty).is_valid = true := by
  refine ⟨fun blk => calculate_hash_setSigAt blk j s, ?_⟩
  obtain ⟨chain, d⟩ := b
  match chain with
  | [] => simp [Blockchain.is_valid] at hvalid
  | g :: rest =>
      rw [Blockchain.is_valid_cons] at hvalid
      simp only [Bool.and_eq_true, beq_iff_eq] at hvalid
      obtain ⟨hg0, hg1, hrest⟩ := hvalid
      match i with
      | 0 =>
          rw [show setTxSigAt (g :: rest) 0 j s =
                { g with transaction := setSigAt g.transaction j s } :: rest
              from rfl,
            Blockchain.is_valid_cons,
            Blockchain.validLinks_congr
              ({ g with transaction := setSigAt g.transaction j s }) g rest rfl,
            calculate_hash_setSigAt]
          simp [hg0, hg1, hrest]
      | i + 1 =>
          rw [show setTxSigAt (g :: rest) (i + 1) j s =
                g :: setTxSigAt rest i j s from rfl,
            Blockchain.is_valid_cons]
          simp [hg0, hg1, validLinks_setTxSigAt g rest i j s hrest]

/-- C3: with sufficient sender balance, `create_and_execute` succeeds; the
sender is debited by exactly the amount, the receiver credited by exactly
the amount, and each history is extended by exactly the returned
transaction, all other entries unchanged. -/
theorem create_and_execute_success_spec (sender receiver : Entity)
    (amount : Rat) (ts : Nat) (hdist : sender.address ≠ receiver.address)
    (hbal : amount ≤ sender.balance) :
    ∃ tx sender2 receiver2,
      Transaction.create_and_execute sender receiver amount ts =
        (Except.ok tx, sender2, receiver2) ∧
      sender2.balance = sender.balance - amount ∧
      receiver2.balance = receiver.balance + amount ∧
      sender2.history = sender.history ++ [tx] ∧
      receiver2.history = receiver.history ++ [tx] := by
  have hcs : sender.can_send amount = true := by
    simp [Entity.can_send, hbal]
  simp only [Transaction.create_and_execute, Entity.send_amount, hcs,
    Bool.not_true, Bool.false_eq_true, if_false]
  exact ⟨_, _, _, rfl, rfl, rfl, rfl, rfl⟩

/-- C4: with insufficient sender balance, `create_and_execute` returns an
error and both entities come back exactly as they went in — no balance or
history mutation on the failure path. -/
theorem create_and_execute_insufficient_atomic (sender receiver : Entity)
    (amount : Rat) (ts : Nat) (hbal : sender.balance < amount) :
    Transaction.create_and_execute sender receiver amount ts =
      (Except.error "Insufficient balance", sender, receiver) := by
  have hcs : sender.can_send amount = false := by
    simp [Entity.can_send]
    exact hbal
  simp [Transaction.create_and_execute, hcs]

/-- C5: `send_amount` on balance `B`: if the amount `A` satisfies `A ≤ B` it
succeeds and the balance becomes exactly `B - A`; if `A > B` it fails with
the insufficient-balance error carrying `have` and `need`, and the balance
(and everything else) is unchanged — the balance is mutated only on
success. -/
theorem send_amount_spec (e : Entity) (a : Rat) :
    (a ≤ e.balance →
      e.send_amount a = (Except.ok (), { e with balance := e.balance - a })) ∧
    (e.balance < a →
      e.send_amount a =
        (Except.error ("Insufficient balance. Have: " ++ amountStr e.balance ++
          ", Need: " ++ amountStr a), e)) := by
  constructor
  · intro h
    have hcs : e.can_send a = true := by simp [Entity.can_send, h]
    simp [Entity.send_amount, hcs]
  · intro h
    have hcs : e.can_send a = false := by
      simp [Entity.can_send]
      exact h
    simp [Entity.send_amount, hcs]

/-- C7 counterexample: an entity with balance `0` (non-negative) ends with a
negative balance after the single operation `receive_amount (-1)` — the
claimed invariant fails for negative amount arguments, because
`receive_amount` adds unconditionally. -/
theorem balance_nonneg_counterexample :
    (0 : Rat) ≤ (Entity.mk "A" 0 [] "p" "k").balance ∧
    ((Entity.mk "A" 0 [] "p" "k").receive_amount (-1)).balance < 0 := by
  constructor <;> norm_num [Entity.receive_amount]

/-- C7 (amended): for non-negative amount arguments, an entity with
non-negative balance still has a non-negative balance after any single
entity operation and after `create_and_execute` with either role.  The
remaining operations (`sign`, `can_send`, `get_balance`, `add_to_history`)
do not touch the balance; `add_to_history` is included, the two read-only
operations are balance-preserving by definition. -/
theorem balance_nonneg_for_nonneg_amounts (e r : Entity) (tx : Transaction)
    (a : Rat) (ts : Nat) (he : 0 ≤ e.balance) (hr : 0 ≤ r.balance)
    (ha : 0 ≤ a) :
    0 ≤ ((e.send_amount a).2).balance ∧
    0 ≤ (e.receive_amount a).balance ∧
    0 ≤ (e.add_to_history tx).balance ∧
    0 ≤ ((Transaction.create_and_execute e r a ts).2.1).balance ∧
    0 ≤ ((Transaction.create_and_execute e r a ts).2.2).balance := by
  have hsend : 0 ≤ ((e.send_amount a).2).balance := by
    by_cases hcs : e.can_send a = true
    · have hle : a ≤ e.balance := by
        simpa [Entity.can_send] using hcs
      simp [Entity.send_amount, hcs]
      linarith
    · simp only [Bool.not_eq_true] at hcs
      simp [Entity.send_amount, hcs, he]
  refine ⟨hsend, ?_, he, ?_, ?_⟩
  · simp [Entity.receive_amount]
    linarith
  · by_cases hcs : e.can_send a = true
    · have hle : a ≤ e.balance := by
        simpa [Entity.can_send] using hcs
      simp [Transaction.create_and_execute, Entity.send_amount, hcs,
        Entity.add_to_history]
      linarith
    · simp only [Bool.not_eq_true] at hcs
      simp [Transaction.create_and_execute, hcs, he]
  · by_cases hcs : e.can_send a = true
    · simp [Transaction.create_and_execute, Entity.send_amount, hcs,
        Entity.add_to_history, Entity.receive_amount]
      linarith
    · simp only [Bool.not_eq_true] at hcs
      simp [Transaction.create_and_execute, hcs, hr]

/-! ## The spec-side hash contract (for the refinement claim C6) -/

/-- The hash payload as the specification words it (section 4.3): previous
hash, then the decimal timestamp, then the decimal nonce, then the
per-transaction strings (sender address, receiver address, decimal amount,
decimal timestamp) joined with a comma. -/
def specPayload (previous_hash : String) (time_stamp nonce : Nat)
    (transaction : List Transaction) : String :=
  previous_hash ++ toString time_stamp ++ toString nonce ++
    String.intercalate "," (transaction.map fun t =>
      t.sender_address ++ t.receiver_address ++ amountStr t.amount ++
      toString t.timestamp)

/-- The digest as the specification words it: lowercase hex of the SHA-256
of the payload's UTF-8 bytes. -/
def specDigest (payload : String) : String :=
  hexString (sha256 (utf8Bytes payload))

/-- Every byte produced by `wordBytes` is below 256. -/
theorem wordBytes_lt (w : Nat) : ∀ x ∈ wordBytes w, x < 256 := by
  intro x hx
  simp only [wordBytes, List.mem_cons, List.not_mem_nil, or_false] at hx
  rcases hx with rfl | rfl | rfl | rfl <;> exact Nat.mod_lt _ (by norm_num)

/-- A SHA-256 digest has exactly 32 bytes. -/
theorem sha256_length (ms : List Nat) : (sha256 ms).length = 32 := by
  unfold sha256
  generalize (group16 (toWords (padBytes ms))).foldl compress initH = st
  obtain ⟨a, b, c, d, e, f, g, h⟩ := st
  simp [wordBytes]

/-- Every byte of a SHA-256 digest is below 256. -/
theorem sha256_bytes_lt (ms : List Nat) : ∀ x ∈ sha256 ms, x < 256 := by
  unfold sha256
  generalize (group16 (toWords (padBytes ms))).foldl compress initH = st
  obtain ⟨a, b, c, d, e, f, g, h⟩ := st
  intro x hx
  simp only [List.mem_append] at hx
  rcases hx with ((((((hx | hx) | hx) | hx) | hx) | hx) | hx) | hx <;>
    exact wordBytes_lt _ x hx

/-- The hex rendering writes exactly two characters per byte. -/
theorem hexString_length (bs : List Nat) :
    (hexString bs).length = 2 * bs.length := by
  show ((bs.map byteHexChars).flatten).length = 2 * bs.length
  induction bs with
  | nil => rfl
  | cons b rest ih =>
      simp only [List.map_cons, List.flatten_cons, List.length_append,
        byteHexChars, List.length_cons, List.length_nil, List.length_map, ih]
      omega

/-- A hex digit of a value below 16 is a lowercase hex character. -/
theorem hexChar_mem (n : Nat) (h : n < 16) :
    ("0123456789abcdef".data).contains (hexChar n) = true := by
  interval_cases n <;> decide

/-- Every character the hex rendering of a byte list emits is a lowercase
hex digit, provided the inputs really are bytes. -/
theorem hexString_all_hex (bs : List Nat) (hb : ∀ x ∈ bs, x < 256) :
    ((hexString bs).data.all
      fun c => ("0123456789abcdef".data).contains c) = true := by
  rw [List.all_eq_true]
  intro c hc
  have hc' : c ∈ (bs.map byteHexChars).flatten := hc
  rw [List.mem_flatten] at hc'
  obtain ⟨l, hl, hcl⟩ := hc'
  rw [List.mem_map] at hl
  obtain ⟨b, hbmem, rfl⟩ := hl
  have hblt := hb b hbmem
  simp only [byteHexChars, List.mem_cons, List.not_mem_nil, or_false] at hcl
  rcases hcl with rfl | rfl
  · exact hexChar_mem _ (by omega)
  · exact hexChar_mem _ (Nat.mod_lt _ (by norm_num))

/-- C6: `Block::hash` returns exactly the digest the specification's hash
contract describes — the lowercase-hex SHA-256 of the UTF-8 payload built
from the previous hash, the decimal timestamp, the decimal nonce and the
comma-joined per-transaction strings; the digest is 64 characters, two
lowercase hex characters per byte with no separators or prefix, and an
empty transaction list contributes the empty string. -/
theorem block_hash_spec_contract (previous_hash : String)
    (time_stamp nonce : Nat) (transaction : List Transaction) :
    Block.hash previous_hash time_stamp nonce transaction =
      specDigest (specPayload previous_hash time_stamp nonce transaction) ∧
    (Block.hash previous_hash time_stamp nonce transaction).length = 64 ∧
    ((Block.hash previous_hash time_stamp nonce transaction).data.all
      fun c => ("0123456789abcdef".data).contains c) = true ∧
    Block.transactionStr [] = "" := by
  refine ⟨rfl, ?_, ?_, rfl⟩
  · show (hexString (sha256 _)).length = 64
    rw [hexString_length, sha256_length]
  · exact hexString_all_hex _ (sha256_bytes_lt _)

/-- C10: `Block::hash` is not injective in the transaction list even
without a SHA-256 collision: the two singleton lists below differ in their
transaction's field values (the sender is split differently), yet their
payload strings are byte-identical, so for every previous hash, timestamp
and nonce the block hashes coincide. -/
theorem block_hash_payload_collision :
    (Transaction.mk "ab" "c" 7 5 "sig").sender_address ≠
      (Transaction.mk "a" "bc" 7 5 "sig").sender_address ∧
    Block.transactionStr [Transaction.mk "ab" "c" 7 5 "sig"] =
      Block.transactionStr [Transaction.mk "a" "bc" 7 5 "sig"] ∧
    ∀ (previous_hash : String) (time_stamp nonce : Nat),
      Block.hash previous_hash time_stamp nonce
          [Transaction.mk "ab" "c" 7 5 "sig"] =
        Block.hash previous_hash time_stamp nonce
          [Transaction.mk "a" "bc" 7 5 "sig"] := by
  have hstr : Block.transactionStr [Transaction.mk "ab" "c" 7 5 "sig"] =
      Block.transactionStr [Transaction.mk "a" "bc" 7 5 "sig"] := by
    decide
  refine ⟨by decide, hstr, fun p ts n => ?_⟩
  rw [Block.hash, Block.hash, hstr]

/-! ## Concrete sample data for the witnesses -/

/-- A concrete genesis block. -/
def g0 : Block := Block.new [] "0" 0

/-- A concrete empty second block on top of `g0`. -/
def b1 : Block := Block.new [] g0.block_hash 1

/-- A concrete two-block chain with no transactions. -/
def bc2 : Blockchain := Blockchain.mk [g0, b1] 3

/-- A concrete transaction. -/
def tx0 : Transaction := Transaction.mk "Alice" "Bob" 40 5 "s0"

/-- A concrete second block carrying `tx0`. -/
def b1t : Block := Block.new [tx0] g0.block_hash 1

/-- A concrete two-block chain whose second block carries `tx0`. -/
def bc2t : Blockchain := Blockchain.mk [g0, b1t] 3

/-- A concrete entity with balance 100. -/
def alice : Entity := Entity.mk "Alice" 100 [] "pub" "priv"

/-- A concrete entity with balance 0. -/
def bob : Entity := Entity.mk "Bob" 0 [] "pub2" "priv2"

set_option maxRecDepth 100000 in
/-- C2 witness: the concrete two-block chain is valid, and both tamperings
at index 1 (previous-hash overwritten with `"x"`, stored hash overwritten
with the empty string) invalidate it. -/
theorem hash_tampering_invalidates_chain_witness :
    bc2.is_valid = true ∧
    ("x" ≠ b1.previous_block_hash ∧
      (Blockchain.mk (setPrevAt bc2.chain 1 "x") bc2.difficulty).is_valid = false) ∧
    ("" ≠ b1.block_hash ∧
      (Blockchain.mk (setHashAt bc2.chain 1 "") bc2.difficulty).is_valid = false) := by
  have hlen : 1 < bc2.chain.length := by decide
  have hv : bc2.is_valid = true := by decide
  have hne1 : "x" ≠ b1.previous_block_hash := by decide
  have hne2 : "" ≠ b1.block_hash := by decide
  have h := hash_tampering_invalidates_chain bc2 1 hlen hv
  exact ⟨hv, ⟨hne1, h.1 "x" (by decide) hne1⟩, ⟨hne2, h.2 "" hne2⟩⟩

set_option maxRecDepth 100000 in
/-- C9 witness: the concrete chain carrying `tx0` is valid; replacing the
signature of its stored transaction leaves the block's recomputed hash
unchanged and the chain still valid. -/
theorem signature_not_integrity_covered_witness :
    bc2t.is_valid = true ∧
    ({ b1t with transaction := setSigAt b1t.transaction 0 "forged" } : Block).calculate_hash =
      b1t.calculate_hash ∧
    (Blockchain.mk (setTxSigAt bc2t.chain 1 0 "forged") bc2t.difficulty).is_valid = true := by
  have hv : bc2t.is_valid = true := by decide
  have h := signature_not_integrity_covered bc2t 1 0 "forged" hv
  exact ⟨hv, h.1 b1t, h.2⟩

/-- C3 witness: Alice (balance 100) sends Bob 40: the transfer succeeds and
the balances and histories change exactly as specified. -/
theorem create_and_execute_success_spec_witness :
    alice.address ≠ bob.address ∧ (40 : Rat) ≤ alice.balance ∧
    ∃ tx sender2 receiver2,
      Transaction.create_and_execute alice bob 40 5 =
        (Except.ok tx, sender2, receiver2) ∧
      sender2.balance = alice.balance - 40 ∧
      receiver2.balance = bob.balance + 40 ∧
      sender2.history = alice.history ++ [tx] ∧
      receiver2.history = bob.history ++ [tx] := by
  have h1 : alice.address ≠ bob.address := by decide
  have h2 : (40 : Rat) ≤ alice.balance := by norm_num [alice]
  exact ⟨h1, h2, create_and_execute_success_spec alice bob 40 5 h1 h2⟩

/-- C4 witness: Bob (balance 0) cannot send 10: the call errors and both
entities come back unchanged. -/
theorem create_and_execute_insufficient_atomic_witness :
    bob.balance < 10 ∧
    Transaction.create_and_execute bob alice 10 5 =
      (Except.error "Insufficient balance", bob, alice) := by
  have h : bob.balance < 10 := by norm_num [bob]
  exact ⟨h, create_and_execute_insufficient_atomic bob alice 10 5 h⟩

/-- C5 witness: Alice can spend 30 and her balance becomes 100 - 30; Bob
cannot spend 5 and comes back unchanged with the insufficient-balance
error. -/
theorem send_amount_spec_witness :
    ((30 : Rat) ≤ alice.balance ∧
      alice.send_amount 30 =
        (Except.ok (), { alice with balance := alice.balance - 30 })) ∧
    (bob.balance < 5 ∧
      bob.send_amount 5 =
        (Except.error ("Insufficient balance. Have: " ++ amountStr bob.balance ++
          ", Need: " ++ amountStr 5), bob)) := by
  have h1 : (30 : Rat) ≤ alice.balance := by norm_num [alice]
  have h2 : bob.balance < 5 := by norm_num [bob]
  exact ⟨⟨h1, (send_amount_spec alice 30).1 h1⟩,
    ⟨h2, (send_amount_spec bob 5).2 h2⟩⟩

/-- C7 witness (for the amended claim): with the non-negative amount 25,
every operation starting from Alice and Bob keeps both balances
non-negative. -/
theorem balance_nonneg_for_nonneg_amounts_witness :
    (0 : Rat) ≤ alice.balance ∧ (0 : Rat) ≤ bob.balance ∧ (0 : Rat) ≤ 25 ∧
    (0 ≤ ((alice.send_amount 25).2).balance ∧
     0 ≤ (alice.receive_amount 25).balance ∧
     0 ≤ (alice.add_to_history tx0).balance ∧
     0 ≤ ((Transaction.create_and_execute alice bob 25 5).2.1).balance ∧
     0 ≤ ((Transaction.create_and_execute alice bob 25 5).2.2).balance) := by
  have he : (0 : Rat) ≤ alice.balance := by norm_num [alice]
  have hr : (0 : Rat) ≤ bob.balance := by norm_num [bob]
  have ha : (0 : Rat) ≤ 25 := by norm_num
  exact ⟨he, hr, ha,
    balance_nonneg_for_nonneg_amounts alice bob tx0 25 5 he hr ha⟩

end BlockC
